import Mathlib

/-!
Shallow embedding of `examples/litellm/simple_ace_example.py` (the ACE
learning-loop example) and of the pieces of the `ace` package contract that
the example relies on. Pure helper functions of the script are translated
directly; the four LLM-backed collaborators (Agent, Environment, Reflector,
SkillManager) and JSON (de)serialization are abstract function parameters,
since their code lives outside this repository.
-/

namespace SimpleAce

variable {Raw AgentOutput SkillUpdate SavedFile Metadata DC J : Type}

/-- Source line 16: `REFLECTION_WINDOW = 3`. -/
def REFLECTION_WINDOW : Nat := 3

/-- The last `n` entries of a list, in original (arrival) order.
Corresponds to the Python slice `l[-n:]` for `n ≤ len(l)`. -/
def lastN (n : Nat) (l : List α) : List α :=
  l.drop (l.length - n)

/-- Model of Python `sep.join(parts)`. -/
def join_str (sep : String) : List String → String
  | [] => ""
  | [p] => p
  | p :: q :: rest => p ++ sep ++ join_str sep (q :: rest)

/-- The `Reflection` value produced by `Reflector.reflect`: a raw serializable
payload plus an ordered list of `(skill_id, tag)` pairs. -/
structure Reflection (Raw : Type) where
  raw : Raw
  skill_tags : List (String × String)
deriving DecidableEq

/-- Source lines 87-91:
`update_recent_reflections(recent_reflections, reflection)` serializes
`reflection.raw` (Python: `json.dumps(reflection.raw, ensure_ascii=False)`,
here the abstract `dumps_raw`), appends it, and when the list length exceeds
`REFLECTION_WINDOW` deletes everything except the last `REFLECTION_WINDOW`
entries (`del recent_reflections[:-REFLECTION_WINDOW]`). -/
def update_recent_reflections (dumps_raw : Raw → String)
    (recent : List String) (reflection : Reflection Raw) : List String :=
  let serialized := dumps_raw reflection.raw
  let r := recent ++ [serialized]
  if REFLECTION_WINDOW < r.length then r.drop (r.length - REFLECTION_WINDOW) else r

theorem length_lastN_le (n : Nat) (l : List α) : (lastN n l).length ≤ n := by
  simp [lastN]
  omega

theorem update_recent_reflections_eq_lastN (dumps_raw : Raw → String)
    (recent : List String) (reflection : Reflection Raw) :
    update_recent_reflections dumps_raw recent reflection =
      lastN REFLECTION_WINDOW (recent ++ [dumps_raw reflection.raw]) := by
  simp only [update_recent_reflections, lastN]
  split
  · rfl
  · rename_i h
    have hl : (recent ++ [dumps_raw reflection.raw]).length = recent.length + 1 := by
      simp
    rw [hl] at h ⊢
    have h0 : recent.length + 1 - REFLECTION_WINDOW = 0 := by omega
    simp [h0]

theorem lastN_append_lastN (n : Nat) (a b : List α) :
    lastN n (lastN n a ++ b) = lastN n (a ++ b) := by
  by_cases h : a.length ≤ n
  · have : a.length - n = 0 := by omega
    simp [lastN, this]
  · have hk : a.length - n ≤ a.length := by omega
    simp only [lastN]
    rw [← List.drop_append_of_le_length hk]
    rw [List.drop_drop]
    congr 1
    simp [List.length_drop, List.length_append]
    omega

/-- The window contents after folding a reflection sequence into an arbitrary
starting window that is itself a most-recent suffix. -/
theorem foldl_update_recent_reflections (dumps_raw : Raw → String)
    (rs : List (Reflection Raw)) :
    ∀ (apps0 : List String),
      rs.foldl (fun acc r => update_recent_reflections dumps_raw acc r)
          (lastN REFLECTION_WINDOW apps0) =
        lastN REFLECTION_WINDOW (apps0 ++ rs.map (fun r => dumps_raw r.raw)) := by
  induction rs with
  | nil => intro apps0; simp
  | cons r rest ih =>
    intro apps0
    simp only [List.foldl_cons]
    rw [update_recent_reflections_eq_lastN, lastN_append_lastN]
    have := ih (apps0 ++ [dumps_raw r.raw])
    simp only [List.map_cons, List.append_assoc, List.singleton_append] at this ⊢
    exact this

/-- Claim C1: appending any sequence of reflections through
`update_recent_reflections`, starting from an empty window, always leaves at
most `REFLECTION_WINDOW` (= 3) entries, and the window holds exactly the most
recently appended serialized reflections, in arrival order (oldest first). -/
theorem reflection_window_bounded_and_most_recent (dumps_raw : Raw → String)
    (rs : List (Reflection Raw)) :
    (rs.foldl (fun acc r => update_recent_reflections dumps_raw acc r) []).length
        ≤ REFLECTION_WINDOW ∧
      rs.foldl (fun acc r => update_recent_reflections dumps_raw acc r) [] =
        lastN REFLECTION_WINDOW (rs.map (fun r => dumps_raw r.raw)) := by
  have h0 : ([] : List String) = lastN REFLECTION_WINDOW [] := rfl
  rw [h0, foldl_update_recent_reflections dumps_raw rs []]
  exact ⟨by simpa using length_lastN_le REFLECTION_WINDOW _, by simp⟩

/-- Claim C10: when the window is below capacity, `update_recent_reflections`
appends exactly one serialized reflection and leaves every previously stored
entry present, unchanged and in its original position. -/
theorem update_recent_reflections_below_capacity (dumps_raw : Raw → String)
    (recent : List String) (reflection : Reflection Raw)
    (h : recent.length < REFLECTION_WINDOW) :
    update_recent_reflections dumps_raw recent reflection =
      recent ++ [dumps_raw reflection.raw] := by
  rw [update_recent_reflections_eq_lastN]
  have hl : (recent ++ [dumps_raw reflection.raw]).length = recent.length + 1 := by
    simp
  have h0 : recent.length + 1 - REFLECTION_WINDOW = 0 := by omega
  simp [lastN, hl, h0]

/-- Witness for C10 at a concrete window below capacity. -/
theorem update_recent_reflections_below_capacity_witness :
    (["a", "b"] : List String).length < REFLECTION_WINDOW ∧
      update_recent_reflections (fun s => s) ["a", "b"]
          (Reflection.mk "c" []) = ["a", "b"] ++ ["c"] :=
  ⟨by decide,
   update_recent_reflections_below_capacity (fun s => s) ["a", "b"]
     (Reflection.mk "c" []) (by decide)⟩

/-- A skill in the skillbook: stable id, strategy text, mutable tag set. -/
structure Skill where
  id : String
  content : String
  tags : List String
deriving DecidableEq

/-- The skillbook: an ordered collection of skills keyed by id. -/
abbrev Skillbook := List Skill

/-- Modelled from the spec: `Skillbook.tag_skill(id, tag)` (the `ace` package
method called at source line 153 is not part of this repository). It appends
`tag` to the skill's tag set if `id` exists (re-adding an existing tag is a
no-op); otherwise it fails with a "skill not found" error (Python raises
`ValueError`). -/
def tag_skill (sb : Skillbook) (id tag : String) : Except String Skillbook :=
  if sb.any (fun sk => sk.id = id) then
    Except.ok (sb.map (fun sk =>
      if sk.id = id then
        (if tag ∈ sk.tags then sk else { sk with tags := sk.tags ++ [tag] })
      else sk))
  else
    Except.error "skill not found"

/-- Source lines 151-155: the tagging loop of `main`.
`for tag in reflection.skill_tags: try: skillbook.tag_skill(...) except
ValueError: pass`. Besides the updated skillbook it returns the trace of
attempted calls, each paired with whether the call succeeded. -/
def apply_skill_tags (sb : Skillbook) :
    List (String × String) → Skillbook × List ((String × String) × Bool)
  | [] => (sb, [])
  | t :: rest =>
    match tag_skill sb t.1 t.2 with
    | Except.ok sb' =>
      let r := apply_skill_tags sb' rest
      (r.1, (t, true) :: r.2)
    | Except.error _ =>
      let r := apply_skill_tags sb rest
      (r.1, (t, false) :: r.2)

theorem apply_skill_tags_append (xs : List (String × String)) :
    ∀ (sb : Skillbook) (ys : List (String × String)),
      apply_skill_tags sb (xs ++ ys) =
        ((apply_skill_tags (apply_skill_tags sb xs).1 ys).1,
         (apply_skill_tags sb xs).2 ++
           (apply_skill_tags (apply_skill_tags sb xs).1 ys).2) := by
  induction xs with
  | nil => intro sb ys; simp [apply_skill_tags]
  | cons t rest ih =>
    intro sb ys
    simp only [List.cons_append, apply_skill_tags]
    cases h : tag_skill sb t.1 t.2 with
    | ok sb' => simp [ih sb' ys]
    | error e => simp [ih sb ys]

theorem apply_skill_tags_calls (tags : List (String × String)) :
    ∀ (sb : Skillbook), (apply_skill_tags sb tags).2.map Prod.fst = tags := by
  induction tags with
  | nil => intro sb; simp [apply_skill_tags]
  | cons t rest ih =>
    intro sb
    simp only [apply_skill_tags]
    cases h : tag_skill sb t.1 t.2 with
    | ok sb' => simp [ih sb']
    | error e => simp [ih sb]

/-- Claim C2: the tagging loop attempts `tag_skill` for every `(id, tag)` pair
of the reflection in order, and a pair that fails with the "skill not found"
`ValueError` is discarded alone: the remaining pairs are still applied exactly
as if the failing pair were absent, and the loop always returns (no exception
escapes, by totality of `apply_skill_tags`). -/
theorem tagging_loop_skips_failed_pair (sb : Skillbook)
    (pre : List (String × String)) (t : String × String)
    (post : List (String × String))
    (h : tag_skill (apply_skill_tags sb pre).1 t.1 t.2 =
      Except.error "skill not found") :
    (apply_skill_tags sb (pre ++ t :: post)).1 =
        (apply_skill_tags (apply_skill_tags sb pre).1 post).1 ∧
      (apply_skill_tags sb (pre ++ t :: post)).2.map Prod.fst =
        pre ++ t :: post := by
  refine ⟨?_, apply_skill_tags_calls _ sb⟩
  rw [apply_skill_tags_append]
  simp [apply_skill_tags, h]

/-- Witness for C2: a skillbook holding only skill `s1`, a failing middle pair
`("unknown", "harmful")`, and a trailing pair that is still applied. -/
theorem tagging_loop_skips_failed_pair_witness :
    tag_skill (apply_skill_tags [Skill.mk "s1" "c" []] [("s1", "helpful")]).1
        "unknown" "harmful" = Except.error "skill not found" ∧
      ((apply_skill_tags [Skill.mk "s1" "c" []]
            ([("s1", "helpful")] ++ ("unknown", "harmful") :: [("s1", "x")])).1 =
          (apply_skill_tags
            (apply_skill_tags [Skill.mk "s1" "c" []] [("s1", "helpful")]).1
            [("s1", "x")]).1 ∧
        (apply_skill_tags [Skill.mk "s1" "c" []]
            ([("s1", "helpful")] ++ ("unknown", "harmful") :: [("s1", "x")])).2.map
            Prod.fst =
          [("s1", "helpful")] ++ ("unknown", "harmful") :: [("s1", "x")]) :=
  ⟨rfl,
   tagging_loop_skips_failed_pair [Skill.mk "s1" "c" []] [("s1", "helpful")]
     ("unknown", "harmful") [("s1", "x")] rfl⟩

/-- A training sample: question, context (default empty), optional ground
truth, and a metadata mapping (kept abstract; it is only ever passed to
`json.dumps`). -/
structure Sample (Metadata : Type) where
  question : String
  context : String := ""
  ground_truth : Option String := none
  metadata : Metadata

/-- The result of `Environment.evaluate`: feedback text plus the optional
ground truth. -/
structure EvalResult where
  feedback : String
  ground_truth : Option String

/-- Python `str()` of an optional string, as an f-string renders it:
`None` for the absent case, the string itself otherwise. -/
def pyStr : Option String → String
  | none => "None"
  | some s => s

/-- Source lines 72-80: `build_question_context(sample, env_result)` joins the
five labelled fields with newlines. `dumps_meta` stands for the external
`json.dumps` applied to `sample.metadata`. -/
def build_question_context (dumps_meta : Metadata → String)
    (sample : Sample Metadata) (env_result : EvalResult) : String :=
  let parts := [
    "question: " ++ sample.question,
    "context: " ++ sample.context,
    "metadata: " ++ dumps_meta sample.metadata,
    "feedback: " ++ env_result.feedback,
    "ground_truth: " ++ pyStr env_result.ground_truth]
  join_str "\n" parts

/-- Claim C3: for every sample and evaluation result, the question-context
block lists the five fields one per line, in exactly the order question,
context, metadata (JSON-encoded), feedback, ground_truth. -/
theorem build_question_context_field_order (dumps_meta : Metadata → String)
    (sample : Sample Metadata) (env_result : EvalResult) :
    build_question_context dumps_meta sample env_result =
      "question: " ++ sample.question ++
        ("\ncontext: " ++ sample.context ++
          ("\nmetadata: " ++ dumps_meta sample.metadata ++
            ("\nfeedback: " ++ env_result.feedback ++
              ("\nground_truth: " ++ pyStr env_result.ground_truth)))) := by
  show ("question: " ++ sample.question) ++ "\n" ++
      (("context: " ++ sample.context) ++ "\n" ++
        (("metadata: " ++ dumps_meta sample.metadata) ++ "\n" ++
          (("feedback: " ++ env_result.feedback) ++ "\n" ++
            ("ground_truth: " ++ pyStr env_result.ground_truth)))) = _
  have hc : ("\n" : String) ++ "context: " = "\ncontext: " := rfl
  have hm : ("\n" : String) ++ "metadata: " = "\nmetadata: " := rfl
  have hf : ("\n" : String) ++ "feedback: " = "\nfeedback: " := rfl
  have hg : ("\n" : String) ++ "ground_truth: " = "\nground_truth: " := rfl
  simp only [String.append_assoc, ← hc, ← hm, ← hf, ← hg]

/-- Source lines 83-84: `progress_string(epoch, total_epochs, step,
total_steps)`. -/
def progress_string (epoch total_epochs step total_steps : Nat) : String :=
  s!"epoch {epoch}/{total_epochs} - sample {step}/{total_steps}"

/-- Claim C4: `progress_string` returns exactly
`epoch {epoch}/{total_epochs} - sample {step}/{total_steps}` with the four
values substituted; checked symbolically and on a concrete instance. -/
theorem progress_string_format :
    (∀ epoch total_epochs step total_steps : Nat,
      progress_string epoch total_epochs step total_steps =
        "epoch " ++ toString epoch ++ "/" ++ toString total_epochs ++
          " - sample " ++ toString step ++ "/" ++ toString total_steps) ∧
      progress_string 1 2 3 4 = "epoch 1/2 - sample 3/4" := by
  constructor
  · intro epoch total_epochs step total_steps
    have hs : ∀ s : String, toString s = s := fun _ => rfl
    simp [progress_string, String.append_assoc, hs, String.append_empty]
  · rfl

/-- The keyword options the script passes to `json.dumps` at source line 31:
`indent=2, sort_keys=True, ensure_ascii=True`. -/
structure DumpArgs where
  indent : Option Nat
  sort_keys : Bool
  ensure_ascii : Bool
deriving DecidableEq

/-- The shapes a payload given to `format_payload` can take: a dataclass
(type `DC`), a plain string, or a dict-like JSON-serializable value
(type `J`). -/
inductive Payload (DC J : Type) where
  | dataclass (d : DC)
  | str (s : String)
  | dict (j : J)

/-- Source lines 22-31: `format_payload(payload)`. A dataclass is first
converted with `dataclasses.asdict`; a string is parsed with `json.loads` and
returned unchanged when parsing raises `JSONDecodeError`; everything that
survives is dumped with `json.dumps(payload, indent=2, sort_keys=True,
ensure_ascii=True)`. `asdict`, `loads` and `dumps` stand for the external
Python library functions. -/
def format_payload (asdict : DC → J) (loads : String → Option J)
    (dumps : DumpArgs → J → String) : Payload DC J → String
  | Payload.dataclass d => dumps ⟨some 2, true, true⟩ (asdict d)
  | Payload.str s =>
    match loads s with
    | some j => dumps ⟨some 2, true, true⟩ j
    | none => s
  | Payload.dict j => dumps ⟨some 2, true, true⟩ j

/-- Claim C9: a string payload that is not valid JSON is returned unchanged;
a dataclass, a dict-like value, or a string holding valid JSON is returned as
a JSON dump invoked with `sort_keys = true` (keys sorted) and
`ensure_ascii = true` (non-ASCII escaped). -/
theorem format_payload_cases (asdict : DC → J) (loads : String → Option J)
    (dumps : DumpArgs → J → String) :
    (∀ s, loads s = none →
        format_payload asdict loads dumps (Payload.str s) = s) ∧
      (∀ s j, loads s = some j →
        format_payload asdict loads dumps (Payload.str s) =
          dumps ⟨some 2, true, true⟩ j) ∧
      (∀ d, format_payload asdict loads dumps (Payload.dataclass d) =
        dumps ⟨some 2, true, true⟩ (asdict d)) ∧
      (∀ j, format_payload asdict loads dumps (Payload.dict j) =
        dumps ⟨some 2, true, true⟩ j) := by
  refine ⟨fun s h => ?_, fun s j h => ?_, fun d => rfl, fun j => rfl⟩
  · simp [format_payload, h]
  · simp [format_payload, h]

/-- Witness for C9 with concrete parsing and dumping functions: the string
`"hi"` is not valid JSON and passes through unchanged, while `"{}"` parses
and is dumped. -/
theorem format_payload_cases_witness :
    ((fun s => if s = "{}" then some () else none) "hi" = none ∧
        format_payload (fun _ : Unit => ())
          (fun s => if s = "{}" then some () else none)
          (fun _ _ => "dumped") (Payload.str "hi") = "hi") ∧
      ((fun s => if s = "{}" then some () else none) "{}" = some () ∧
        format_payload (fun _ : Unit => ())
          (fun s => if s = "{}" then some () else none)
          (fun _ _ => "dumped") (Payload.str "{}") = "dumped") :=
  ⟨⟨rfl,
    (format_payload_cases (fun _ : Unit => ())
        (fun s => if s = "{}" then some () else none)
        (fun _ _ => "dumped")).1 "hi" rfl⟩,
   ⟨rfl,
    (format_payload_cases (fun _ : Unit => ())
        (fun s => if s = "{}" then some () else none)
        (fun _ _ => "dumped")).2.1 "{}" () rfl⟩⟩

/-- The result of `SkillManager.update_skills`: carries the proposed
`SkillUpdate`. -/
structure SkillManagerOutput (SkillUpdate : Type) where
  update : SkillUpdate

/-- The external collaborators the example calls: the four LLM-backed stages,
the skillbook mutators of the `ace` package, JSON serialization, and
persistence. Their code is outside this repository, so they are abstract
functions; the loop below threads data between them exactly as `main` does. -/
structure Components (Raw AgentOutput SkillUpdate SavedFile Metadata : Type) where
  generate : String → String → Skillbook → String → Sample Metadata → AgentOutput
  evaluate : Sample Metadata → AgentOutput → EvalResult
  reflect : String → AgentOutput → Skillbook → Option String → String → Reflection Raw
  update_skills : Reflection Raw → Skillbook → String → String →
    SkillManagerOutput SkillUpdate
  apply_update : Skillbook → SkillUpdate → Skillbook
  dumps_raw : Raw → String
  dumps_meta : Metadata → String
  save : Skillbook → SavedFile

/-- Observable events of one loop run, in execution order, each carrying the
data the corresponding call consumed or produced. -/
inductive Event (Raw AgentOutput SkillUpdate SavedFile Metadata : Type) where
  | generate (question ctx : String) (sb : Skillbook) (reflection_text : String)
      (out : AgentOutput)
  | evaluate (sample : Sample Metadata) (inp : AgentOutput) (out : EvalResult)
  | reflect (question : String) (inp : AgentOutput) (out : Reflection Raw)
  | tag (id tg : String) (ok : Bool)
  | window (appended : String)
  | update_skills (out : SkillManagerOutput SkillUpdate)
  | apply_update (upd : SkillUpdate)
  | record (epoch step_index : Nat)
  | save (data : SavedFile)

/-- The stage kinds, for stating execution order. -/
inductive EventKind where
  | generate
  | evaluate
  | reflect
  | tag
  | window
  | update_skills
  | apply_update
  | record
  | save
deriving DecidableEq

def Event.kind : Event Raw AgentOutput SkillUpdate SavedFile Metadata → EventKind
  | .generate .. => .generate
  | .evaluate .. => .evaluate
  | .reflect .. => .reflect
  | .tag .. => .tag
  | .window .. => .window
  | .update_skills .. => .update_skills
  | .apply_update .. => .apply_update
  | .record .. => .record
  | .save .. => .save

/-- The reflection-window text an `Event.generate` passed to the Agent. -/
def reflectionTextOf :
    Event Raw AgentOutput SkillUpdate SavedFile Metadata → Option String
  | .generate _ _ _ t _ => some t
  | .evaluate _ _ _ => none
  | .reflect _ _ _ => none
  | .tag _ _ _ => none
  | .window _ => none
  | .update_skills _ => none
  | .apply_update _ => none
  | .record _ _ => none
  | .save _ => none

/-- The serialized reflection an `Event.window` appended to the window. -/
def windowAppendOf :
    Event Raw AgentOutput SkillUpdate SavedFile Metadata → Option String
  | .generate _ _ _ _ _ => none
  | .evaluate _ _ _ => none
  | .reflect _ _ _ => none
  | .tag _ _ _ => none
  | .window s => some s
  | .update_skills _ => none
  | .apply_update _ => none
  | .record _ _ => none
  | .save _ => none

/-- The `(epoch, step_index)` pair of an `Event.record`. -/
def recordPairOf :
    Event Raw AgentOutput SkillUpdate SavedFile Metadata → Option (Nat × Nat)
  | .generate _ _ _ _ _ => none
  | .evaluate _ _ _ => none
  | .reflect _ _ _ => none
  | .tag _ _ _ => none
  | .window _ => none
  | .update_skills _ => none
  | .apply_update _ => none
  | .record e i => some (e, i)
  | .save _ => none

/-- The payload an `Event.save` wrote to persistent storage. -/
def saveDataOf :
    Event Raw AgentOutput SkillUpdate SavedFile Metadata → Option SavedFile
  | .generate _ _ _ _ _ => none
  | .evaluate _ _ _ => none
  | .reflect _ _ _ => none
  | .tag _ _ _ => none
  | .window _ => none
  | .update_skills _ => none
  | .apply_update _ => none
  | .record _ _ => none
  | .save d => some d

/-- The mutable state the loop threads between samples: the skillbook, the
reflection window (`recent_reflections`), and the accumulated `results` list
of `(agent_output, reflection, skill_manager_output)` triples. -/
structure LoopState (Raw AgentOutput SkillUpdate : Type) where
  skillbook : Skillbook
  recent_reflections : List String
  results : List (AgentOutput × Reflection Raw × SkillManagerOutput SkillUpdate)

/-- Source lines 132-172: the body of `main`'s per-sample loop (printing
aside). In order: `agent.agent.generate` with the window joined by
`"\n---\n"`, `environment.evaluate`, `agent.reflector.reflect`, the tagging
loop, `update_recent_reflections`, `agent.skill_manager.update_skills` with
the built question context and progress string, `skillbook.apply_update`,
then `results.append`. -/
def run_step (C : Components Raw AgentOutput SkillUpdate SavedFile Metadata)
    (epoch total_epochs total_steps step_index : Nat)
    (st : LoopState Raw AgentOutput SkillUpdate) (sample : Sample Metadata) :
    LoopState Raw AgentOutput SkillUpdate ×
      List (Event Raw AgentOutput SkillUpdate SavedFile Metadata) :=
  let reflection_text := join_str "\n---\n" st.recent_reflections
  let agent_output :=
    C.generate sample.question sample.context st.skillbook reflection_text sample
  let env_result := C.evaluate sample agent_output
  let reflection :=
    C.reflect sample.question agent_output st.skillbook env_result.ground_truth
      env_result.feedback
  let tagged := apply_skill_tags st.skillbook reflection.skill_tags
  let recent1 := update_recent_reflections C.dumps_raw st.recent_reflections reflection
  let smo :=
    C.update_skills reflection tagged.1
      (build_question_context C.dumps_meta sample env_result)
      (progress_string epoch total_epochs step_index total_steps)
  let sb2 := C.apply_update tagged.1 smo.update
  (⟨sb2, recent1, st.results ++ [(agent_output, reflection, smo)]⟩,
   [Event.generate sample.question sample.context st.skillbook reflection_text
      agent_output,
    Event.evaluate sample agent_output env_result,
    Event.reflect sample.question agent_output reflection]
   ++ tagged.2.map (fun c => Event.tag c.1.1 c.1.2 c.2)
   ++ [Event.window (C.dumps_raw reflection.raw),
       Event.update_skills smo,
       Event.apply_update smo.update,
       Event.record epoch step_index])

/-- The `for step_index, sample in enumerate(samples, 1)` iteration, carrying
the 1-based `step_index` explicitly. -/
def run_samples_from (C : Components Raw AgentOutput SkillUpdate SavedFile Metadata)
    (epoch total_epochs total_steps : Nat) :
    LoopState Raw AgentOutput SkillUpdate → Nat → List (Sample Metadata) →
      LoopState Raw AgentOutput SkillUpdate ×
        List (Event Raw AgentOutput SkillUpdate SavedFile Metadata)
  | st, _, [] => (st, [])
  | st, step_index, s :: rest =>
    let r1 := run_step C epoch total_epochs total_steps step_index st s
    let r2 := run_samples_from C epoch total_epochs total_steps r1.1
      (step_index + 1) rest
    (r2.1, r1.2 ++ r2.2)

/-- Source lines 126-172: one pass of `main`'s training loop over `samples`,
with `total_steps = len(samples)` and `step_index` starting at 1. -/
def run_samples (C : Components Raw AgentOutput SkillUpdate SavedFile Metadata)
    (epoch total_epochs : Nat) (st : LoopState Raw AgentOutput SkillUpdate)
    (samples : List (Sample Metadata)) :
    LoopState Raw AgentOutput SkillUpdate ×
      List (Event Raw AgentOutput SkillUpdate SavedFile Metadata) :=
  run_samples_from C epoch total_epochs samples.length st 1 samples

/-- Modelled from the spec: the epoch iteration of the learning loop (§4.6)
is not part of this repository's visible code — the example hardcodes
`epoch = 1, total_epochs = 1`. Per the spec, the loop repeats the full sample
sequence once per epoch; skillbook, window and results persist across epoch
boundaries and are not reset. -/
def run_epochs_from (C : Components Raw AgentOutput SkillUpdate SavedFile Metadata)
    (total_epochs : Nat) (samples : List (Sample Metadata)) :
    LoopState Raw AgentOutput SkillUpdate → Nat → Nat →
      LoopState Raw AgentOutput SkillUpdate ×
        List (Event Raw AgentOutput SkillUpdate SavedFile Metadata)
  | st, _, 0 => (st, [])
  | st, epoch, remaining + 1 =>
    let r1 := run_samples C epoch total_epochs st samples
    let r2 := run_epochs_from C total_epochs samples r1.1 (epoch + 1) remaining
    (r2.1, r1.2 ++ r2.2)

/-- Modelled from the spec: running the learning loop for `epochs` epochs over
`samples`, starting from a freshly loaded skillbook, an empty reflection
window and an empty results list (as `main` initializes them). -/
def run_epochs (C : Components Raw AgentOutput SkillUpdate SavedFile Metadata)
    (epochs : Nat) (samples : List (Sample Metadata)) (sb0 : Skillbook) :
    LoopState Raw AgentOutput SkillUpdate ×
      List (Event Raw AgentOutput SkillUpdate SavedFile Metadata) :=
  run_epochs_from C epochs samples ⟨sb0, [], []⟩ 1 epochs

/-- Source lines 184-187: `agent.save_skillbook(str(SKILLBOOK_PATH))` — the
external save writes a snapshot derived from the skillbook and leaves the
loop state as it is. -/
def save_skillbook (C : Components Raw AgentOutput SkillUpdate SavedFile Metadata)
    (st : LoopState Raw AgentOutput SkillUpdate) :
    LoopState Raw AgentOutput SkillUpdate × SavedFile :=
  (st, C.save st.skillbook)

theorem filterMap_map_none (l : List α) (g : α → β) (f : β → Option γ)
    (h : ∀ x, f (g x) = none) : (l.map g).filterMap f = [] := by
  induction l with
  | nil => rfl
  | cons x rest ih => simp [h x, ih]

/-- Claim C5: for every sample, the per-sample loop body executes its stages
strictly in the order generate, evaluate, reflect, tag application (one event
per reflected pair), window append, update_skills, apply_update, result
recording — witnessed by the event trace of `run_step`. -/
theorem run_step_stage_order
    (C : Components Raw AgentOutput SkillUpdate SavedFile Metadata)
    (epoch total_epochs total_steps step_index : Nat)
    (st : LoopState Raw AgentOutput SkillUpdate) (sample : Sample Metadata) :
    ∃ n, (run_step C epoch total_epochs total_steps step_index st sample).2.map
        Event.kind =
      [EventKind.generate, EventKind.evaluate, EventKind.reflect] ++
        List.replicate n EventKind.tag ++
        [EventKind.window, EventKind.update_skills, EventKind.apply_update,
          EventKind.record] := by
  refine ⟨(apply_skill_tags st.skillbook
    (C.reflect sample.question
      (C.generate sample.question sample.context st.skillbook
        (join_str "\n---\n" st.recent_reflections) sample)
      st.skillbook
      (C.evaluate sample
        (C.generate sample.question sample.context st.skillbook
          (join_str "\n---\n" st.recent_reflections) sample)).ground_truth
      (C.evaluate sample
        (C.generate sample.question sample.context st.skillbook
          (join_str "\n---\n" st.recent_reflections) sample)).feedback).skill_tags).2.length,
    ?_⟩
  simp [run_step, Event.kind, List.map_map, Function.comp_def, List.map_const']

theorem run_step_window_summary
    (C : Components Raw AgentOutput SkillUpdate SavedFile Metadata)
    (epoch total_epochs total_steps step_index : Nat)
    (st : LoopState Raw AgentOutput SkillUpdate) (sample : Sample Metadata) :
    ∃ a : String,
      (run_step C epoch total_epochs total_steps step_index st sample).2.filterMap
          windowAppendOf = [a] ∧
        (run_step C epoch total_epochs total_steps step_index st sample).2.filterMap
          reflectionTextOf = [join_str "\n---\n" st.recent_reflections] ∧
        (run_step C epoch total_epochs total_steps step_index st
            sample).1.recent_reflections =
          lastN REFLECTION_WINDOW (st.recent_reflections ++ [a]) := by
  refine ⟨C.dumps_raw (C.reflect sample.question
      (C.generate sample.question sample.context st.skillbook
        (join_str "\n---\n" st.recent_reflections) sample)
      st.skillbook
      (C.evaluate sample
        (C.generate sample.question sample.context st.skillbook
          (join_str "\n---\n" st.recent_reflections) sample)).ground_truth
      (C.evaluate sample
        (C.generate sample.question sample.context st.skillbook
          (join_str "\n---\n" st.recent_reflections) sample)).feedback).raw,
    ?_, ?_, ?_⟩
  · simp [run_step, windowAppendOf,
      filterMap_map_none _ (fun c => Event.tag c.1.1 c.1.2 c.2) _ (fun _ => rfl)]
  · simp [run_step, reflectionTextOf,
      filterMap_map_none _ (fun c => Event.tag c.1.1 c.1.2 c.2) _ (fun _ => rfl)]
  · simp [run_step, update_recent_reflections_eq_lastN]

theorem run_samples_from_window_texts
    (C : Components Raw AgentOutput SkillUpdate SavedFile Metadata)
    (epoch total_epochs total_steps : Nat) :
    ∀ (samples : List (Sample Metadata))
      (st : LoopState Raw AgentOutput SkillUpdate) (step_index : Nat)
      (apps0 : List String),
      st.recent_reflections = lastN REFLECTION_WINDOW apps0 →
      (run_samples_from C epoch total_epochs total_steps st step_index
            samples).2.filterMap reflectionTextOf =
          (List.range samples.length).map (fun i =>
            join_str "\n---\n" (lastN REFLECTION_WINDOW (apps0 ++
              ((run_samples_from C epoch total_epochs total_steps st step_index
                samples).2.filterMap windowAppendOf).take i))) ∧
        (run_samples_from C epoch total_epochs total_steps st step_index
              samples).1.recent_reflections =
          lastN REFLECTION_WINDOW (apps0 ++
            (run_samples_from C epoch total_epochs total_steps st step_index
              samples).2.filterMap windowAppendOf) ∧
        ((run_samples_from C epoch total_epochs total_steps st step_index
            samples).2.filterMap windowAppendOf).length = samples.length := by
  intro samples
  induction samples with
  | nil =>
    intro st step_index apps0 h
    refine ⟨by simp [run_samples_from], ?_, by simp [run_samples_from]⟩
    simpa [run_samples_from] using h
  | cons s rest ih =>
    intro st step_index apps0 h
    obtain ⟨a, hw, ht, hr⟩ :=
      run_step_window_summary C epoch total_epochs total_steps step_index st s
    have hr' : (run_step C epoch total_epochs total_steps step_index st
        s).1.recent_reflections = lastN REFLECTION_WINDOW (apps0 ++ [a]) := by
      rw [hr, h, lastN_append_lastN]
    obtain ⟨iht, ihr, ihl⟩ := ih
      (run_step C epoch total_epochs total_steps step_index st s).1
      (step_index + 1) (apps0 ++ [a]) hr'
    have htr : (run_samples_from C epoch total_epochs total_steps st step_index
        (s :: rest)).2 =
      (run_step C epoch total_epochs total_steps step_index st s).2 ++
        (run_samples_from C epoch total_epochs total_steps
          (run_step C epoch total_epochs total_steps step_index st s).1
          (step_index + 1) rest).2 := rfl
    have hst : (run_samples_from C epoch total_epochs total_steps st step_index
        (s :: rest)).1 =
      (run_samples_from C epoch total_epochs total_steps
        (run_step C epoch total_epochs total_steps step_index st s).1
        (step_index + 1) rest).1 := rfl
    have happs : (run_samples_from C epoch total_epochs total_steps st step_index
        (s :: rest)).2.filterMap windowAppendOf =
      a :: (run_samples_from C epoch total_epochs total_steps
        (run_step C epoch total_epochs total_steps step_index st s).1
        (step_index + 1) rest).2.filterMap windowAppendOf := by
      rw [htr, List.filterMap_append, hw]
      rfl
    refine ⟨?_, ?_, ?_⟩
    · rw [htr]
      simp only [List.filterMap_append, ht, hw, List.singleton_append,
        List.length_cons]
      rw [List.range_succ_eq_map, List.map_cons, List.map_map]
      congr 1
      · rw [h]
        simp
      · rw [iht]
        apply List.map_congr_left
        intro i hi
        simp only [Function.comp_apply, List.take_succ_cons]
        congr 2
        simp [List.append_assoc]
    · rw [hst, happs, ihr, List.append_assoc, List.singleton_append]
    · rw [happs, List.length_cons, ihl]
      rfl


/-- Claim C6: over a full pass of the training loop started (as `main` does)
with an empty reflection window, every reflection text handed to
`Agent.generate` is exactly the current window entries joined by the fixed
separator `"\n---\n"`, oldest retained entry first — the window before step
`i` being the most recent `REFLECTION_WINDOW` of the serialized reflections
appended so far, in arrival order. -/
theorem generate_reflection_text_joins_window
    (C : Components Raw AgentOutput SkillUpdate SavedFile Metadata)
    (epoch total_epochs : Nat) (sb0 : Skillbook)
    (samples : List (Sample Metadata)) :
    (run_samples C epoch total_epochs ⟨sb0, [], []⟩ samples).2.filterMap
        reflectionTextOf =
      (List.range ((run_samples C epoch total_epochs ⟨sb0, [], []⟩
          samples).2.filterMap windowAppendOf).length).map (fun i =>
        join_str "\n---\n" (lastN REFLECTION_WINDOW
          (((run_samples C epoch total_epochs ⟨sb0, [], []⟩
            samples).2.filterMap windowAppendOf).take i))) := by
  obtain ⟨h1, h2, h3⟩ :=
    run_samples_from_window_texts C epoch total_epochs samples.length samples
      ⟨sb0, [], []⟩ 1 [] rfl
  simp only [run_samples, h3]
  simpa using h1

theorem run_samples_from_records
    (C : Components Raw AgentOutput SkillUpdate SavedFile Metadata)
    (epoch total_epochs total_steps : Nat) :
    ∀ (samples : List (Sample Metadata))
      (st : LoopState Raw AgentOutput SkillUpdate) (step_index : Nat),
      (run_samples_from C epoch total_epochs total_steps st step_index
            samples).2.filterMap recordPairOf =
          (List.range samples.length).map (fun i => (epoch, step_index + i)) ∧
        (run_samples_from C epoch total_epochs total_steps st step_index
            samples).1.results.length = st.results.length + samples.length := by
  intro samples
  induction samples with
  | nil =>
    intro st step_index
    exact ⟨by simp [run_samples_from], by simp [run_samples_from]⟩
  | cons s rest ih =>
    intro st step_index
    have hstep : (run_step C epoch total_epochs total_steps step_index st
        s).2.filterMap recordPairOf = [(epoch, step_index)] := by
      simp [run_step, recordPairOf,
        filterMap_map_none _ (fun c => Event.tag c.1.1 c.1.2 c.2) _ (fun _ => rfl)]
    have hres : (run_step C epoch total_epochs total_steps step_index st
        s).1.results.length = st.results.length + 1 := by
      simp [run_step]
    obtain ⟨ih1, ih2⟩ := ih
      (run_step C epoch total_epochs total_steps step_index st s).1
      (step_index + 1)
    constructor
    · have htr : (run_samples_from C epoch total_epochs total_steps st step_index
          (s :: rest)).2 =
        (run_step C epoch total_epochs total_steps step_index st s).2 ++
          (run_samples_from C epoch total_epochs total_steps
            (run_step C epoch total_epochs total_steps step_index st s).1
            (step_index + 1) rest).2 := rfl
      rw [htr, List.filterMap_append, hstep, ih1, List.length_cons,
        List.range_succ_eq_map, List.map_cons, List.map_map,
        List.singleton_append]
      congr 1
      apply List.map_congr_left
      intro i hi
      simp only [Function.comp_apply]
      congr 1
      omega
    · have hst : (run_samples_from C epoch total_epochs total_steps st step_index
          (s :: rest)).1 =
        (run_samples_from C epoch total_epochs total_steps
          (run_step C epoch total_epochs total_steps step_index st s).1
          (step_index + 1) rest).1 := rfl
      rw [hst, ih2, hres, List.length_cons]
      omega

theorem run_epochs_from_records
    (C : Components Raw AgentOutput SkillUpdate SavedFile Metadata)
    (total_epochs : Nat) (samples : List (Sample Metadata)) :
    ∀ (remaining : Nat) (st : LoopState Raw AgentOutput SkillUpdate)
      (epoch : Nat),
      (run_epochs_from C total_epochs samples st epoch
            remaining).2.filterMap recordPairOf =
          ((List.range remaining).map (fun k =>
            (List.range samples.length).map (fun i =>
              (epoch + k, 1 + i)))).flatten ∧
        (run_epochs_from C total_epochs samples st epoch
            remaining).1.results.length =
          st.results.length + remaining * samples.length := by
  intro remaining
  induction remaining with
  | zero =>
    intro st epoch
    exact ⟨by simp [run_epochs_from], by simp [run_epochs_from]⟩
  | succ n ih =>
    intro st epoch
    obtain ⟨h1, h2⟩ := run_samples_from_records C epoch total_epochs
      samples.length samples st 1
    obtain ⟨ih1, ih2⟩ := ih (run_samples C epoch total_epochs st samples).1
      (epoch + 1)
    have htr : (run_epochs_from C total_epochs samples st epoch (n + 1)).2 =
      (run_samples C epoch total_epochs st samples).2 ++
        (run_epochs_from C total_epochs samples
          (run_samples C epoch total_epochs st samples).1 (epoch + 1) n).2 := rfl
    have hst : (run_epochs_from C total_epochs samples st epoch (n + 1)).1 =
      (run_epochs_from C total_epochs samples
        (run_samples C epoch total_epochs st samples).1 (epoch + 1) n).1 := rfl
    constructor
    · rw [htr, List.filterMap_append, ih1]
      have hrs : (run_samples C epoch total_epochs st samples).2.filterMap
          recordPairOf =
        (List.range samples.length).map (fun i => (epoch, 1 + i)) := by
        simp only [run_samples]
        exact h1
      rw [hrs, List.range_succ_eq_map, List.map_cons, List.map_map,
        List.flatten_cons]
      simp [Function.comp_def, Nat.add_comm, Nat.add_assoc, Nat.add_left_comm]
    · rw [hst, ih2]
      have hrl : (run_samples C epoch total_epochs st samples).1.results.length =
          st.results.length + samples.length := by
        simp only [run_samples]
        exact h2
      rw [hrl, Nat.succ_mul]
      omega

/-- Claim C7: for every epoch count `E` and sample list of length `S`, the
learning loop produces exactly `E * S` StepResults and records them in
sample-then-epoch order — the recorded `(epoch, step_index)` pairs are, in
order, `(1,1) … (1,S), (2,1) … (E,S)` — terminating after exactly those
`E * S` steps with no other termination condition. -/
theorem loop_epoch_sample_counts
    (C : Components Raw AgentOutput SkillUpdate SavedFile Metadata)
    (epochs : Nat) (samples : List (Sample Metadata)) (sb0 : Skillbook) :
    (run_epochs C epochs samples sb0).1.results.length =
        epochs * samples.length ∧
      (run_epochs C epochs samples sb0).2.filterMap recordPairOf =
        ((List.range epochs).map (fun k =>
          (List.range samples.length).map (fun i =>
            (k + 1, i + 1)))).flatten := by
  obtain ⟨h1, h2⟩ := run_epochs_from_records C epochs samples epochs
    ⟨sb0, [], []⟩ 1
  refine ⟨by simpa [run_epochs] using h2, ?_⟩
  rw [run_epochs, h1]
  congr 1
  apply List.map_congr_left
  intro k hk
  apply List.map_congr_left
  intro i hi
  congr 1
  · omega
  · omega

theorem run_samples_from_no_saves
    (C : Components Raw AgentOutput SkillUpdate SavedFile Metadata)
    (epoch total_epochs total_steps : Nat) :
    ∀ (samples : List (Sample Metadata))
      (st : LoopState Raw AgentOutput SkillUpdate) (step_index : Nat),
      (run_samples_from C epoch total_epochs total_steps st step_index
        samples).2.filterMap saveDataOf = [] := by
  intro samples
  induction samples with
  | nil => intro st step_index; simp [run_samples_from]
  | cons s rest ih =>
    intro st step_index
    have htr : (run_samples_from C epoch total_epochs total_steps st step_index
        (s :: rest)).2 =
      (run_step C epoch total_epochs total_steps step_index st s).2 ++
        (run_samples_from C epoch total_epochs total_steps
          (run_step C epoch total_epochs total_steps step_index st s).1
          (step_index + 1) rest).2 := rfl
    have hstep : (run_step C epoch total_epochs total_steps step_index st
        s).2.filterMap saveDataOf = [] := by
      simp [run_step, saveDataOf,
        filterMap_map_none _ (fun c => Event.tag c.1.1 c.1.2 c.2) _ (fun _ => rfl)]
    rw [htr, List.filterMap_append, hstep, ih]
    rfl

/-- Claim C8: the reflection window is transient in-process context only — no
step of the training loop emits a persistence event (the loop's trace carries
no saved payload at all), and the final `save_skillbook` call persists a value
computed from the skillbook alone while leaving the window exactly as it
was. -/
theorem reflection_window_never_persisted
    (C : Components Raw AgentOutput SkillUpdate SavedFile Metadata)
    (epoch total_epochs : Nat) (st st' : LoopState Raw AgentOutput SkillUpdate)
    (samples : List (Sample Metadata)) :
    (run_samples C epoch total_epochs st samples).2.filterMap saveDataOf = [] ∧
      (save_skillbook C st').2 = C.save st'.skillbook ∧
      (save_skillbook C st').1.recent_reflections = st'.recent_reflections := by
  refine ⟨?_, rfl, rfl⟩
  simp only [run_samples]
  exact run_samples_from_no_saves C epoch total_epochs samples.length samples st 1

end SimpleAce
